import Mathlib

/-! ocs-ai: the query handler, the prompt renderer and the answer formatter.

A shallow embedding of `api_handler.go` and `models.go`.

Go strings are modelled as lists of Unicode code points (`Str = List Char`): the
strings handled here are UTF-8 text (JSON-decoded replies, query parameters, the
configuration file), and on valid UTF-8 the byte-level `strings.Index`,
`strings.HasPrefix`, `strings.TrimPrefix` and `strings.ReplaceAll` with a valid
UTF-8 pattern agree with their code-point-level counterparts.  Slices
`s[:i]` / `s[i+len(kw):]` become `take` / `drop` on code points.
-/

namespace OcsAI

/-- A Go string, as its sequence of code points. -/
abbrev Str := List Char

/-! ## The `strings` package -/

namespace Strings

/-- Go `unicode.IsSpace`: the Latin-1 spaces `\t \n \v \f \r`, space, U+0085, U+00A0,
and beyond Latin-1 the code points of Unicode's `White_Space` property. -/
def isSpace (c : Char) : Bool :=
  let n := c.toNat
  n == 0x09 || n == 0x0A || n == 0x0B || n == 0x0C || n == 0x0D || n == 0x20 ||
  n == 0x85 || n == 0xA0 || n == 0x1680 || (0x2000 ≤ n && n ≤ 0x200A) ||
  n == 0x2028 || n == 0x2029 || n == 0x202F || n == 0x205F || n == 0x3000

/-- Go `strings.TrimLeftFunc(s, unicode.IsSpace)`. -/
def trimLeft (s : Str) : Str := s.dropWhile isSpace

/-- Go `strings.TrimRightFunc(s, unicode.IsSpace)`. -/
def trimRight (s : Str) : Str := (s.reverse.dropWhile isSpace).reverse

/-- Go `strings.TrimSpace`: leading and trailing white space removed. -/
def trimSpace (s : Str) : Str := trimRight (trimLeft s)

/-- Go `strings.HasPrefix`. -/
def hasPrefix (s pre : Str) : Bool := pre.isPrefixOf s

/-- Go `strings.TrimPrefix`: `s` without the leading `pre`, or `s` itself. -/
def trimPrefix (s pre : Str) : Str :=
  if hasPrefix s pre then s.drop pre.length else s

/-- Go `strings.Index`: the position of the first occurrence of `sub` in `s`;
`none` stands for Go's `-1`. -/
def index : Str → Str → Option Nat
  | [], sub => if sub.isPrefixOf [] then some 0 else none
  | c :: cs, sub =>
    if sub.isPrefixOf (c :: cs) then some 0
    else (index cs sub).map (· + 1)

/-- The scan of `strings.ReplaceAll` for a non-empty `old`: `skip` counts the
code points of a matched `old` that are still to be passed over. -/
def replaceScan (old new : Str) : Nat → Str → Str
  | _, [] => []
  | skip + 1, _ :: cs => replaceScan old new skip cs
  | 0, c :: cs =>
    if old.isPrefixOf (c :: cs) then new ++ replaceScan old new (old.length - 1) cs
    else c :: replaceScan old new 0 cs

/-- Go `strings.ReplaceAll`: every non-overlapping occurrence of `old`, from the
left, replaced by `new`; an empty `old` matches before every code point and at
the end. -/
def replaceAll (s old new : Str) : Str :=
  match old with
  | [] => new ++ (s.map (fun c => c :: new)).flatten
  | _ :: _ => replaceScan old new 0 s

end Strings

open Strings

/-! ## `formatAIAnswer` -/

/-- The marker phrases of `formatAIAnswer`, in the order of the source. -/
def keywords : List Str :=
  ["解析：".toList, "解析:".toList, "理由：".toList, "理由:".toList, "原因：".toList,
   "原因:".toList, "说明：".toList, "说明:".toList, "推理：".toList, "推理:".toList]

/-- The answer prefixes of `formatAIAnswer`, in the order of the source. -/
def answerPrefixes : List Str :=
  ["正确答案：".toList, "正确答案:".toList, "答案：".toList, "答案:".toList]

/-- The first loop of `formatAIAnswer` over the keywords `kws`: at the first
keyword that occurs, `(analysis, normalized)` becomes the trimmed text after and
before its first occurrence; with no keyword found both are left as they were. -/
def cutAnalysis : List Str → Str → Str × Str
  | [], normalized => ([], normalized)
  | kw :: kws, normalized =>
    match index normalized kw with
    | some idx => (trimSpace (normalized.drop (idx + kw.length)), trimSpace (normalized.take idx))
    | none => cutAnalysis kws normalized

/-- The second loop of `formatAIAnswer` over the prefixes `pres`: the first prefix
that `answerSection` starts with is removed and the rest trimmed. -/
def stripAnswerPrefix : List Str → Str → Str
  | [], answerSection => answerSection
  | pre :: pres, answerSection =>
    if hasPrefix answerSection pre then trimSpace (trimPrefix answerSection pre)
    else stripAnswerPrefix pres answerSection

/-- The first statement of `formatAIAnswer`: line endings normalised, then trimmed. -/
def normalizeReply (raw : Str) : Str :=
  trimSpace (replaceAll raw "\r\n".toList "\n".toList)

/-- The source's `formatAIAnswer`. -/
def formatAIAnswer (raw : Str) : Str :=
  let normalized := normalizeReply raw
  if normalized = [] then []
  else
    let normalized := (cutAnalysis keywords normalized).2
    let answerSection := stripAnswerPrefix answerPrefixes normalized
    let answerSection := if answerSection = [] then normalized else answerSection
    answerSection


/-! ## `renderPrompt` -/

/-- The request of `models.go` (`More` is Go's `*bool`; `Typ` is the field `Type`). -/
structure QueryRequest where
  Token : Str
  Title : Str
  Options : Str
  Typ : Str
  More : Option Bool
  deriving DecidableEq

/-- The keys of the `replacements` map of `renderPrompt`. -/
inductive Placeholder where
  | title
  | options
  | type
  deriving DecidableEq

/-- The placeholder text that a key of `replacements` stands for. -/
def Placeholder.text : Placeholder → Str
  | .title => "\x7b\x7btitle\x7d\x7d".toList
  | .options => "\x7b\x7boptions\x7d\x7d".toList
  | .type => "\x7b\x7btype\x7d\x7d".toList

/-- The `replacements` map of `renderPrompt`: each placeholder with its trimmed field. -/
def replacements (req : QueryRequest) : Placeholder → Str
  | .title => trimSpace req.Title
  | .options => trimSpace req.Options
  | .type => trimSpace req.Typ

/-- The orders in which Go may range over the three keys of `replacements`. -/
def iterationOrders : List (List Placeholder) :=
  [[.title, .options, .type], [.title, .type, .options], [.options, .title, .type],
   [.options, .type, .title], [.type, .title, .options], [.type, .options, .title]]

/-- The source's `renderPrompt`, for the order `order` in which the `range` loop
visits the keys of `replacements` (Go leaves that order unspecified). -/
def renderPrompt (order : List Placeholder) (template : Str) (req : QueryRequest) : Str :=
  order.foldl
    (fun prompt placeholder =>
      let value := replacements req placeholder
      let value := if value = [] then "无".toList else value
      replaceAll prompt placeholder.text value)
    template

/-! ## Data model (`models.go`, `config.go`) -/

/-- One entry of `results`. -/
structure QueryResult where
  Question : Str
  Answer : Str
  deriving DecidableEq

/-- The `data` of a successful response. -/
structure QueryResponseData where
  Question : Str
  Answer : Str
  Results : List QueryResult
  deriving DecidableEq

/-- The successful response. -/
structure QueryResponse where
  Code : Int
  Message : Str
  Times : Int
  Data : QueryResponseData
  deriving DecidableEq

/-- The failure response. -/
structure ErrorResponse where
  Code : Int
  Message : Str
  deriving DecidableEq

/-- The `message` of one choice of the upstream reply. -/
structure ChoiceMessage where
  Role : Str
  Content : Str
  deriving DecidableEq

/-- One element of `choices`. -/
structure Choice where
  Message : ChoiceMessage
  deriving DecidableEq

/-- The `error` object of the upstream reply (`code`, of type `any`, is not read). -/
structure OpenAIError where
  Message : Str
  Typ : Str
  deriving DecidableEq

/-- The decoded upstream reply. -/
structure OpenAIResponse where
  Choices : List Choice
  Error : Option OpenAIError
  deriving DecidableEq

/-- The `AI` section of `Config`; the `float64` settings are carried as rationals. -/
structure AIConfig where
  BaseURL : Str
  APIKey : Str
  Model : Str
  SystemPrompt : Str
  PromptTemplate : Str
  Temperature : Rat
  TopP : Rat
  MaxTokens : Int
  Timeout : Int

/-- One chat message of the outbound payload. -/
structure ChatMessage where
  role : Str
  content : Str
  deriving DecidableEq

/-- The outbound payload map: the three sampling keys are present only when set. -/
structure Payload where
  model : Str
  messages : List ChatMessage
  temperature : Option Rat
  top_p : Option Rat
  max_tokens : Option Int
  deriving DecidableEq

/-- The outbound HTTP request. -/
structure HttpRequest where
  method : Str
  url : Str
  body : Str
  header : List (Str × Str)
  deriving DecidableEq

/-- What `aiClient.Do` hands back: the status code, and the outcome of
`ioutil.ReadAll(resp.Body)`. -/
structure HttpResponse where
  StatusCode : Int
  Body : Except Str Str

/-- The calls that leave the handler: their results are not computed by this
program, so they are parameters of the model. -/
structure World where
  /-- The order in which `range replacements` visits its keys. -/
  rangeOrder : List Placeholder
  /-- `json.Marshal(payload)`. -/
  jsonMarshal : Payload → Except Str Str
  /-- The error, if any, with which `http.NewRequest` rejects a URL. -/
  urlError : Str → Option Str
  /-- `h.aiClient.Do(httpReq)` followed by `ioutil.ReadAll(resp.Body)`. -/
  clientDo : HttpRequest → Except Str HttpResponse
  /-- `json.Unmarshal(respBody, &aiResp)`. -/
  jsonUnmarshal : Str → Except Str OpenAIResponse

/-- The steps towards the AI endpoint that a run of the handler performed. -/
inductive Call where
  | marshal (payload : Payload)
  | newRequest (method url body : Str)
  | send (httpReq : HttpRequest)
  deriving DecidableEq

/-- The value handed to `c.JSON`. -/
inductive Body where
  | failure (e : ErrorResponse)
  | success (q : QueryResponse)
  deriving DecidableEq

/-- The observable result of a handler run: the arguments of its one `c.JSON`
call and the outbound steps it took before. -/
structure Reply where
  status : Int
  body : Body
  calls : List Call
  deriving DecidableEq

/-- The `code` field of the response body. -/
def Body.code : Body → Int
  | .failure e => e.Code
  | .success q => q.Code

/-! ## The query handler (`api_handler.go`) -/

/-- The constant `defaultAISystemPrompt`. -/
def defaultAISystemPrompt : Str :=
  "你是一名专业的答题助手，请根据题目内容和选项快速给出最可能的正确答案，并提供必要的推理。".toList

/-- The constant `defaultAIPromptTemplate`. -/
def defaultAIPromptTemplate : Str :=
  "题目：\x7b\x7btitle\x7d\x7d\n选项：\x7b\x7boptions\x7d\x7d\n类型：\x7b\x7btype\x7d\x7d\n\n请给出最可能的正确答案，并在必要时给出简要解释。".toList

/-- The call `c.JSON(status, ErrorResponse{Code: 0, Message: message})`. -/
def fail (status : Int) (message : Str) (calls : List Call) : Reply :=
  ⟨status, .failure ⟨0, message⟩, calls⟩

/-- The tail of `handleAIQuery`, from the status check on the received reply. -/
def answerFrom (w : World) (req : QueryRequest) (resp : HttpResponse) (calls : List Call) :
    Reply :=
  match resp.Body with
  | .error err => fail 500 ("读取AI响应失败: ".toList ++ err) calls
  | .ok respBody =>
    if resp.StatusCode ≥ 400 then
      fail resp.StatusCode ("AI接口返回错误: ".toList ++ trimSpace respBody) calls
    else
      match w.jsonUnmarshal respBody with
      | .error err => fail 500 ("解析AI响应失败: ".toList ++ err) calls
      | .ok aiResp =>
        match aiResp.Error with
        | some e => fail 500 ("AI接口错误: ".toList ++ e.Message) calls
        | none =>
          match aiResp.Choices with
          | [] => fail 500 "AI接口未返回有效答案".toList calls
          | choice :: _ =>
            if trimSpace choice.Message.Content = [] then
              fail 500 "AI接口未返回有效答案".toList calls
            else
              let rawAnswer := trimSpace choice.Message.Content
              let formattedAnswer := formatAIAnswer rawAnswer
              let data : QueryResponseData :=
                if req.More = some true then
                  ⟨[], [], [⟨req.Title, formattedAnswer⟩]⟩
                else
                  ⟨req.Title, formattedAnswer, []⟩
              ⟨200, .success ⟨1, "AI回答成功".toList, -1, data⟩, calls⟩

/-- The payload that `handleAIQuery` builds for a request. -/
def buildPayload (w : World) (config : AIConfig) (req : QueryRequest) : Payload :=
  let model := trimSpace config.Model
  let model := if model = [] then "gpt-4o-mini".toList else model
  let systemPrompt := trimSpace config.SystemPrompt
  let systemPrompt := if systemPrompt = [] then defaultAISystemPrompt else systemPrompt
  let promptTemplate := trimSpace config.PromptTemplate
  let promptTemplate := if promptTemplate = [] then defaultAIPromptTemplate else promptTemplate
  let prompt := renderPrompt w.rangeOrder promptTemplate req
  let messages : List ChatMessage :=
    if systemPrompt ≠ [] then [⟨"system".toList, systemPrompt⟩] else []
  let messages := messages ++ [⟨"user".toList, prompt⟩]
  { model := model
    messages := messages
    temperature := if config.Temperature > 0 then some config.Temperature else none
    top_p := if config.TopP > 0 then some config.TopP else none
    max_tokens := if config.MaxTokens > 0 then some config.MaxTokens else none }

/-- The endpoint that `handleAIQuery` posts to. -/
def resolveBaseURL (config : AIConfig) : Str :=
  let baseURL := trimSpace config.BaseURL
  if baseURL = [] then "https://api.openai.com/v1/chat/completions".toList else baseURL

/-- The request that `handleAIQuery` builds around the serialised payload `body`. -/
def buildRequest (config : AIConfig) (body : Str) : HttpRequest :=
  let header : List (Str × Str) :=
    [("Content-Type".toList, "application/json".toList),
     ("Accept".toList, "application/json".toList)]
  let header :=
    if trimSpace config.APIKey ≠ [] then
      header ++ [("Authorization".toList, "Bearer ".toList ++ trimSpace config.APIKey)]
    else header
  ⟨"POST".toList, resolveBaseURL config, body, header⟩

/-- The outbound steps of a run that got as far as `h.aiClient.Do`. -/
def sentCalls (w : World) (config : AIConfig) (req : QueryRequest) (body : Str) : List Call :=
  [.marshal (buildPayload w config req),
   .newRequest "POST".toList (resolveBaseURL config) body,
   .send (buildRequest config body)]

/-- The source's `handleAIQuery`. -/
def handleAIQuery (w : World) (config : AIConfig) (req : QueryRequest) : Reply :=
  if trimSpace req.Title = [] then
    fail 400 "缺少必要参数: title".toList []
  else
    let payload := buildPayload w config req
    match w.jsonMarshal payload with
    | .error err => fail 500 ("构建AI请求失败: ".toList ++ err) [.marshal payload]
    | .ok body =>
      match w.urlError (resolveBaseURL config) with
      | some err =>
        fail 500 ("创建AI请求失败: ".toList ++ err)
          [.marshal payload, .newRequest "POST".toList (resolveBaseURL config) body]
      | none =>
        match w.clientDo (buildRequest config body) with
        | .error err => fail 500 ("请求AI接口失败: ".toList ++ err) (sentCalls w config req body)
        | .ok resp => answerFrom w req resp (sentCalls w config req body)

/-- Go `strconv.ParseBool`; `none` stands for its error. -/
def parseBool (s : Str) : Option Bool :=
  if s ∈ ["1".toList, "t".toList, "T".toList, "TRUE".toList, "true".toList, "True".toList] then
    some true
  else if s ∈ ["0".toList, "f".toList, "F".toList, "FALSE".toList, "false".toList,
      "False".toList] then
    some false
  else none

/-- The inbound request as the handler sees it: for `GET` the query parameters
(`""` when absent), otherwise the outcome of `c.ShouldBindJSON(&req)`. -/
inductive Inbound where
  | get (query : Str → Str)
  | other (bound : Except Str QueryRequest)

/-- The binding at the head of `HandleQuery`. -/
def bindRequest : Inbound → Except Str QueryRequest
  | .get query =>
    let moreStr := query "more".toList
    .ok
      { Token := query "token".toList
        Title := query "title".toList
        Options := query "options".toList
        Typ := query "type".toList
        More := if moreStr ≠ [] then parseBool moreStr else none }
  | .other bound => bound

/-- The source's `HandleQuery`. -/
def HandleQuery (w : World) (config : AIConfig) (inbound : Inbound) : Reply :=
  match bindRequest inbound with
  | .error err => fail 400 ("解析请求失败: ".toList ++ err) []
  | .ok req =>
    if req.Title = [] then fail 400 "缺少必要参数: title".toList []
    else handleAIQuery w config req

/-! ## Fixtures for the concrete instances -/

/-- A configuration that leaves every setting to its in-handler default. -/
def blankConfig : AIConfig :=
  { BaseURL := [], APIKey := [], Model := [], SystemPrompt := [], PromptTemplate := [],
    Temperature := 0, TopP := 0, MaxTokens := 0, Timeout := 30 }

/-- A world in which the endpoint answers with status `status` and a body that
decodes to a reply with the single choice content `content` and no `error`. -/
def cannedWorld (status : Int) (content : Str) : World :=
  { rangeOrder := [.title, .options, .type]
    jsonMarshal := fun _ => .ok "payload".toList
    urlError := fun _ => none
    clientDo := fun _ => .ok ⟨status, .ok "reply".toList⟩
    jsonUnmarshal := fun _ => .ok ⟨[⟨⟨"assistant".toList, content⟩⟩], none⟩ }

/-- A world in which the endpoint answers with status `status` and reading the
body of the reply fails with `err`. -/
def unreadWorld (status : Int) (err : Str) : World :=
  { rangeOrder := [.title, .options, .type]
    jsonMarshal := fun _ => .ok "payload".toList
    urlError := fun _ => none
    clientDo := fun _ => .ok ⟨status, .error err⟩
    jsonUnmarshal := fun _ => .error "unexpected end of JSON input".toList }

/-- A request with title `title` and nothing else. -/
def titleOnly (title : Str) : QueryRequest :=
  { Token := [], Title := title, Options := [], Typ := [], More := none }

/-! ## Facts about the `strings` functions -/

namespace Strings

theorem isPrefixOf_eq_true_iff (p s : Str) : p.isPrefixOf s = true ↔ p <+: s :=
  List.isPrefixOf_iff_prefix

theorem infix_iff_prefix_drop (p s : Str) : p <:+: s ↔ ∃ j, p <+: s.drop j := by
  constructor
  · rintro ⟨u, v, rfl⟩
    refine ⟨u.length, ?_⟩
    rw [List.append_assoc, List.drop_left]
    exact List.prefix_append p v
  · rintro ⟨j, hj⟩
    exact hj.isInfix.trans (List.drop_suffix j s).isInfix

theorem index_eq_none_iff (s sub : Str) :
    index s sub = none ↔ ∀ j, ¬ sub <+: s.drop j := by
  induction s with
  | nil =>
    simp only [index, List.drop_nil, isPrefixOf_eq_true_iff]
    by_cases h : sub <+: []
    · simp [h]
    · simp [h]
  | cons c cs ih =>
    simp only [index, isPrefixOf_eq_true_iff]
    by_cases h : sub <+: c :: cs
    · simp only [h, if_true]
      constructor
      · intro h'; cases h'
      · intro h'; exact absurd h (h' 0)
    · simp only [h, if_false, Option.map_eq_none', ih]
      constructor
      · intro h' j
        cases j with
        | zero => exact h
        | succ j => exact h' j
      · intro h' j
        exact h' (j + 1)

theorem index_eq_some_iff (s sub : Str) (i : Nat) :
    index s sub = some i ↔
      sub <+: s.drop i ∧ i ≤ s.length ∧ ∀ j, j < i → ¬ sub <+: s.drop j := by
  induction s generalizing i with
  | nil =>
    simp only [index, List.drop_nil, isPrefixOf_eq_true_iff, List.length_nil, Nat.le_zero]
    by_cases h : sub <+: []
    · simp only [h, if_true, Option.some.injEq, true_and]
      constructor
      · rintro rfl; exact ⟨rfl, fun j hj => absurd hj (Nat.not_lt_zero j)⟩
      · rintro ⟨rfl, _⟩; rfl
    · simp [h]
  | cons c cs ih =>
    simp only [index, isPrefixOf_eq_true_iff]
    by_cases h : sub <+: c :: cs
    · simp only [h, if_true, Option.some.injEq]
      constructor
      · rintro rfl
        exact ⟨h, Nat.zero_le _, fun j hj => absurd hj (Nat.not_lt_zero j)⟩
      · rintro ⟨_, _, h3⟩
        by_contra hne
        exact h3 0 (Nat.pos_of_ne_zero (fun h0 => hne h0.symm)) h
    · simp only [h, if_false, Option.map_eq_some']
      constructor
      · rintro ⟨k, hk, rfl⟩
        obtain ⟨h1, h2, h3⟩ := (ih k).1 hk
        refine ⟨h1, Nat.succ_le_succ h2, ?_⟩
        intro j hj
        cases j with
        | zero => exact h
        | succ j => exact h3 j (Nat.lt_of_succ_lt_succ hj)
      · rintro ⟨h1, h2, h3⟩
        cases i with
        | zero => exact absurd h1 h
        | succ k =>
          refine ⟨k, (ih k).2 ⟨h1, Nat.le_of_succ_le_succ h2, ?_⟩, rfl⟩
          intro j hj
          exact h3 (j + 1) (Nat.succ_lt_succ hj)

theorem index_eq_none_iff_absent (s sub : Str) : index s sub = none ↔ ¬ sub <:+: s := by
  rw [index_eq_none_iff, infix_iff_prefix_drop]
  simp

/-- An occurrence found by `index` splits the text, and no occurrence starts earlier. -/
theorem index_some_split {s sub : Str} {i : Nat} (h : index s sub = some i) :
    ∃ v, s = s.take i ++ sub ++ v ∧ (s.take i).length = i ∧
      ∀ u' v', s = u' ++ sub ++ v' → i ≤ u'.length := by
  obtain ⟨⟨v, hv⟩, h2, h3⟩ := (index_eq_some_iff s sub i).1 h
  refine ⟨v, ?_, ?_, ?_⟩
  · rw [List.append_assoc, hv, List.take_append_drop]
  · simp [h2]
  · intro u' v' hs
    by_contra hlt
    apply h3 u'.length (Nat.lt_of_not_le hlt)
    rw [hs, List.append_assoc, List.drop_left]
    exact List.prefix_append sub v'

/-- The position of the leftmost occurrence is what `index` returns. -/
theorem index_of_leftmost {s sub u v : Str} (hs : s = u ++ sub ++ v)
    (hleft : ∀ j, j < u.length → ¬ sub <+: s.drop j) : index s sub = some u.length := by
  rw [index_eq_some_iff]
  refine ⟨?_, ?_, hleft⟩
  · rw [hs, List.append_assoc, List.drop_left]
    exact List.prefix_append sub v
  · rw [hs]; simp

/-! ### Trimming -/

theorem trimLeft_cons_of_not_space {c : Char} (s : Str) (h : isSpace c = false) :
    trimLeft (c :: s) = c :: s := by
  simp [trimLeft, List.dropWhile, h]

theorem dropWhile_append_of_ne_nil (p : Char → Bool) (l₁ l₂ : Str)
    (h : l₁.dropWhile p ≠ []) : (l₁ ++ l₂).dropWhile p = l₁.dropWhile p ++ l₂ := by
  induction l₁ with
  | nil => simp at h
  | cons a l ih =>
    by_cases hp : p a = true
    · simp only [List.cons_append, List.dropWhile_cons, hp, if_true] at h ⊢
      exact ih h
    · simp [List.dropWhile_cons, hp]

theorem dropWhile_append_of_eq_nil (p : Char → Bool) (l₁ l₂ : Str)
    (h : l₁.dropWhile p = []) : (l₁ ++ l₂).dropWhile p = l₂.dropWhile p := by
  induction l₁ with
  | nil => simp
  | cons a l ih =>
    by_cases hp : p a = true
    · simp only [List.cons_append, List.dropWhile_cons, hp, if_true] at h ⊢
      exact ih h
    · simp [List.dropWhile_cons, hp] at h

/-- Trimming on the right leaves alone a text whose last code point is no space. -/
theorem trimRight_append_of_last (u t : Str) (c : Char) (h : isSpace c = false) :
    trimRight ((u ++ [c]) ++ t) = (u ++ [c]) ++ trimRight t := by
  unfold trimRight
  have hu : (u ++ [c]).reverse.dropWhile isSpace = (u ++ [c]).reverse := by
    simp [List.dropWhile_cons, h]
  rw [List.reverse_append]
  by_cases ht : t.reverse.dropWhile isSpace = []
  · rw [dropWhile_append_of_eq_nil _ _ _ ht, hu, ht]; simp
  · rw [dropWhile_append_of_ne_nil _ _ _ ht, List.reverse_append, List.reverse_reverse]

theorem trimRight_of_last (u : Str) (c : Char) (h : isSpace c = false) :
    trimRight (u ++ [c]) = u ++ [c] := by
  have := trimRight_append_of_last u [] c h
  simpa [trimRight] using this

theorem trimRight_nil : trimRight [] = [] := rfl

theorem exists_eq_append_last {a : Str} (ha : a ≠ []) : ∃ u c, a = u ++ [c] ∧ a.getLast? = some c := by
  refine ⟨a.dropLast, a.getLast ha, (List.dropLast_append_getLast ha).symm, ?_⟩
  exact List.getLast?_eq_getLast a ha

/-- Trimming leaves alone a text that neither starts nor ends with a space. -/
theorem trimSpace_eq_self {a : Str} (hl : ∀ c, a.head? = some c → isSpace c = false)
    (hr : ∀ c, a.getLast? = some c → isSpace c = false) : trimSpace a = a := by
  cases a with
  | nil => rfl
  | cons c s =>
    unfold trimSpace
    rw [trimLeft_cons_of_not_space s (hl c rfl)]
    obtain ⟨u, d, hu, hd⟩ := exists_eq_append_last (List.cons_ne_nil c s)
    rw [hu]
    exact trimRight_of_last u d (hr d hd)

/-- The trimmed text is a part of the text. -/
theorem trimSpace_isInfix (s : Str) : trimSpace s <:+: s := by
  unfold trimSpace trimRight trimLeft
  have h1 : ((s.dropWhile isSpace).reverse.dropWhile isSpace).reverse <+: s.dropWhile isSpace := by
    have := List.dropWhile_suffix isSpace (l := (s.dropWhile isSpace).reverse)
    have h := List.reverse_prefix.2 this
    simpa using h
  exact h1.isInfix.trans (List.dropWhile_suffix isSpace).isInfix

/-! ### Occurrences in a concatenation -/

/-- An occurrence that starts inside `u` lies inside `u` or straddles the seam. -/
theorem prefix_drop_append_cases {p u t : Str} {j : Nat} (hj : j < u.length)
    (h : p <+: (u ++ t).drop j) :
    p <+: u.drop j ∨
      ∃ k, 0 < k ∧ k < p.length ∧ p.take k = u.drop j ∧ p.drop k <+: t := by
  rw [List.drop_append_of_le_length (Nat.le_of_lt hj)] at h
  by_cases hlen : p.length ≤ (u.drop j).length
  · exact Or.inl (List.prefix_of_prefix_length_le h (List.prefix_append _ t) hlen)
  · right
    have hlt : (u.drop j).length < p.length := Nat.lt_of_not_le hlen
    obtain ⟨r, hr⟩ := List.prefix_of_prefix_length_le (List.prefix_append _ t) h
      (Nat.le_of_lt hlt)
    refine ⟨(u.drop j).length, ?_, hlt, ?_, ?_⟩
    · simp only [List.length_drop]; omega
    · rw [← hr, List.take_left]
    · rw [← hr, List.drop_left]
      rw [← hr] at h
      exact (List.prefix_append_right_inj _).1 h

/-- An occurrence in `u ++ t` lies in `u`, lies in `t`, or straddles the seam. -/
theorem infix_append_cases {p u t : Str} (h : p <:+: u ++ t) :
    p <:+: u ∨ p <:+: t ∨
      ∃ k, 0 < k ∧ k < p.length ∧ p.take k <:+ u ∧ p.drop k <+: t := by
  obtain ⟨j, hj⟩ := (infix_iff_prefix_drop p (u ++ t)).1 h
  by_cases hlt : j < u.length
  · rcases prefix_drop_append_cases hlt hj with h1 | ⟨k, hk0, hk1, hk2, hk3⟩
    · exact Or.inl ((infix_iff_prefix_drop p u).2 ⟨j, h1⟩)
    · refine Or.inr (Or.inr ⟨k, hk0, hk1, ?_, hk3⟩)
      rw [hk2]; exact List.drop_suffix j u
  · right; left
    have hle : u.length ≤ j := Nat.le_of_not_lt hlt
    rw [List.drop_append_eq_append_drop, List.drop_eq_nil_of_le hle, List.nil_append] at hj
    exact (infix_iff_prefix_drop p t).2 ⟨_, hj⟩

/-! ### `replaceScan` -/

theorem replaceScan_skip (old new : Str) (k : Nat) (s : Str) :
    replaceScan old new k s = replaceScan old new 0 (s.drop k) := by
  induction k generalizing s with
  | zero => rfl
  | succ k ih =>
    cases s with
    | nil => simp [replaceScan]
    | cons c cs => simp only [replaceScan, List.drop_succ_cons]; exact ih cs

theorem replaceScan_nil (old new : Str) : replaceScan old new 0 [] = [] := rfl

/-- At an occurrence of `old` the scan emits `new` and resumes after the occurrence. -/
theorem replaceScan_of_match {old new s : Str} (hne : old ≠ []) (h : old <+: s) :
    replaceScan old new 0 s = new ++ replaceScan old new 0 (s.drop old.length) := by
  cases s with
  | nil => exact absurd (List.prefix_nil.1 h) hne
  | cons c cs =>
    have hb : old.isPrefixOf (c :: cs) = true := (isPrefixOf_eq_true_iff _ _).2 h
    have hlen : old.length = (old.length - 1) + 1 := by
      have := List.length_pos.2 hne; omega
    simp only [replaceScan, hb, if_true]
    rw [replaceScan_skip, hlen, List.drop_succ_cons]
    simp

/-- Where `old` does not occur the scan copies one code point. -/
theorem replaceScan_cons_of_no_match {old new : Str} {c : Char} {cs : Str}
    (h : ¬ old <+: c :: cs) :
    replaceScan old new 0 (c :: cs) = c :: replaceScan old new 0 cs := by
  have hb : ¬ old.isPrefixOf (c :: cs) = true := fun hb => h ((isPrefixOf_eq_true_iff _ _).1 hb)
  simp [replaceScan, hb]

/-- A stretch in which no occurrence of `old` starts is copied unchanged. -/
theorem replaceScan_append_of_no_match {old new : Str} (u t : Str)
    (h : ∀ j, j < u.length → ¬ old <+: (u ++ t).drop j) :
    replaceScan old new 0 (u ++ t) = u ++ replaceScan old new 0 t := by
  induction u with
  | nil => rfl
  | cons c u ih =>
    have h0 : ¬ old <+: c :: (u ++ t) := h 0 (by simp)
    rw [List.cons_append, replaceScan_cons_of_no_match h0, ih]
    · rfl
    · intro j hj
      exact h (j + 1) (by simpa using hj)

/-- A text without occurrence of `old` is left unchanged. -/
theorem replaceScan_of_not_infix {old new s : Str} (h : ¬ old <:+: s) :
    replaceScan old new 0 s = s := by
  have := @replaceScan_append_of_no_match old new s []
    (fun j _ hp => h ((infix_iff_prefix_drop old s).2 ⟨j, by simpa using hp⟩))
  simpa [replaceScan_nil] using this

/-- A text `p` that shares no code point with the head of `new` starts the output
only where it starts the input. -/
theorem prefix_of_prefix_replaceScan {old new p : Str} {x : Char} {xs : Str}
    (hnew : new = x :: xs) (hx : x ∉ p) (s : Str)
    (h : p <+: replaceScan old new 0 s) : p <+: s := by
  induction p generalizing s with
  | nil => exact List.nil_prefix
  | cons a p ih =>
    cases s with
    | nil => simp [replaceScan_nil] at h
    | cons c cs =>
      by_cases hp : old <+: c :: cs
      · have hne : old ≠ [] := by
          rintro rfl
          simp [replaceScan, hnew] at h
          exact hx (by simp [h.1])
        rw [replaceScan_of_match hne hp, hnew, List.cons_append, List.cons_prefix_cons] at h
        exact absurd (by simp [h.1]) hx
      · rw [replaceScan_cons_of_no_match hp, List.cons_prefix_cons] at h
        rw [List.cons_prefix_cons]
        exact ⟨h.1, ih (fun hm => hx (List.mem_cons_of_mem _ hm)) cs h.2⟩

theorem infix_of_infix_append_disjoint {p new rest : Str} (hp : p ≠ [])
    (hd : ∀ c, c ∈ new → c ∉ p) (h : p <:+: new ++ rest) : p <:+: rest := by
  induction new with
  | nil => simpa using h
  | cons x xs ih =>
    rw [List.cons_append, List.infix_cons_iff] at h
    rcases h with h | h
    · cases p with
      | nil => exact absurd rfl hp
      | cons a p =>
        rw [List.cons_prefix_cons] at h
        exact absurd (by simp [h.1]) (hd x (by simp))
    · exact ih (fun c hc => hd c (List.mem_cons_of_mem _ hc)) h

/-- Replacing by a non-empty `new` that shares no code point with `p` creates no
occurrence of `p`. -/
theorem infix_of_infix_replaceScan {old new p : Str} (hold : old ≠ []) (hnew : new ≠ [])
    (hd : ∀ c, c ∈ new → c ∉ p) :
    ∀ (n : Nat) (s : Str), s.length ≤ n → p <:+: replaceScan old new 0 s → p <:+: s := by
  obtain ⟨x, xs, hx⟩ := List.exists_cons_of_ne_nil hnew
  intro n
  induction n with
  | zero =>
    intro s hs h
    have : s = [] := List.length_eq_zero.1 (Nat.le_zero.1 hs)
    subst this
    simpa [replaceScan_nil] using h
  | succ n ih =>
    intro s hs h
    cases s with
    | nil => simpa [replaceScan_nil] using h
    | cons c cs =>
      by_cases hpn : p = []
      · subst hpn; exact List.nil_infix
      by_cases hp : old <+: c :: cs
      · rw [replaceScan_of_match hold hp] at h
        have h2 := infix_of_infix_append_disjoint hpn hd h
        have hlen : ((c :: cs).drop old.length).length ≤ n := by
          have := List.length_pos.2 hold
          simp only [List.length_drop, List.length_cons] at hs ⊢
          omega
        exact (ih _ hlen h2).trans (List.drop_suffix _ _).isInfix
      · rw [replaceScan_cons_of_no_match hp, List.infix_cons_iff] at h
        rcases h with h | h
        · rw [← replaceScan_cons_of_no_match hp] at h
          have hxp : x ∉ p := hd x (by simp [hx])
          exact (prefix_of_prefix_replaceScan hx hxp _ h).isInfix
        · have hlen : cs.length ≤ n := by simpa using hs
          exact (ih cs hlen h).trans (List.suffix_cons c cs).isInfix

end Strings

/-! ## Facts about the answer formatter -/

theorem replaceAll_crlf (s : Str) :
    replaceAll s "\r\n".toList "\n".toList = replaceScan "\r\n".toList "\n".toList 0 s := rfl

theorem getLast?_of_suffix {s u : Str} (hs : s ≠ []) (h : s <:+ u) :
    u.getLast? = s.getLast? := by
  obtain ⟨w, rfl⟩ := h
  cases s with
  | nil => exact absurd rfl hs
  | cons c s =>
    rw [List.getLast?_append]
    rw [List.getLast?_eq_getLast _ (List.cons_ne_nil c s)]
    rfl

/-- With no keyword of `kws` in the text, the first loop changes nothing. -/
theorem cutAnalysis_of_none (kws : List Str) (n : Str) (h : ∀ kw, kw ∈ kws → ¬ kw <:+: n) :
    cutAnalysis kws n = ([], n) := by
  induction kws with
  | nil => rfl
  | cons k ks ih =>
    have hk : index n k = none := (index_eq_none_iff_absent n k).2 (h k (by simp))
    simp only [cutAnalysis, hk]
    exact ih (fun kw hkw => h kw (List.mem_cons_of_mem _ hkw))

/-- The first loop cuts at the first keyword, in list order, that occurs in the
text, and there at its leftmost occurrence. -/
theorem cutAnalysis_spec (kws : List Str) (n : Str) (h : ∃ kw, kw ∈ kws ∧ kw <:+: n) :
    ∃ before kw after u v, kws = before ++ kw :: after ∧
      (∀ k, k ∈ before → ¬ k <:+: n) ∧ n = u ++ kw ++ v ∧
      (∀ u' v', n = u' ++ kw ++ v' → u.length ≤ u'.length) ∧
      cutAnalysis kws n = (trimSpace v, trimSpace u) := by
  induction kws with
  | nil => obtain ⟨kw, hkw, _⟩ := h; simp at hkw
  | cons k ks ih =>
    cases hidx : index n k with
    | none =>
      have hk : ¬ k <:+: n := (index_eq_none_iff_absent n k).1 hidx
      obtain ⟨kw, hkw, hin⟩ := h
      have hmem : kw ∈ ks := by
        rcases List.mem_cons.1 hkw with rfl | hm
        · exact absurd hin hk
        · exact hm
      obtain ⟨before, kw', after, u, v, h1, h2, h3, h4, h5⟩ := ih ⟨kw, hmem, hin⟩
      refine ⟨k :: before, kw', after, u, v, by rw [h1]; rfl, ?_, h3, h4, ?_⟩
      · intro k' hk'
        rcases List.mem_cons.1 hk' with rfl | hm
        · exact hk
        · exact h2 k' hm
      · simp only [cutAnalysis, hidx]; exact h5
    | some i =>
      obtain ⟨v, hv, hlen, hleft⟩ := index_some_split hidx
      have hd : n.drop (i + k.length) = v := by
        have hl : (n.take i ++ k).length = i + k.length := by
          rw [List.length_append, hlen]
        have : List.drop (i + k.length) ((n.take i ++ k) ++ v) = v := List.drop_left' hl
        rw [← hv] at this
        exact this
      refine ⟨[], k, ks, n.take i, v, rfl, by simp, hv, ?_, ?_⟩
      · intro u' v' h'
        rw [hlen]; exact hleft u' v' h'
      · simp only [cutAnalysis, hidx, hd]

/-- With none of the prefixes at the head of the text, the second loop changes nothing. -/
theorem stripAnswerPrefix_of_none (pres : List Str) (s : Str)
    (h : ∀ pre, pre ∈ pres → ¬ pre <+: s) : stripAnswerPrefix pres s = s := by
  induction pres with
  | nil => rfl
  | cons p ps ih =>
    have hp : hasPrefix s p = false := by
      cases hb : hasPrefix s p with
      | false => rfl
      | true => exact absurd ((isPrefixOf_eq_true_iff p s).1 hb) (h p (by simp))
    simp only [stripAnswerPrefix, hp]
    exact ih (fun pre hpre => h pre (List.mem_cons_of_mem _ hpre))

theorem keywords_ne_nil : ∀ kw, kw ∈ keywords → kw ≠ [] := by decide

theorem newline_not_mem_keywords : ∀ kw, kw ∈ keywords → '\n' ∉ kw := by decide

/-- Normalising a reply creates no occurrence of a keyword. -/
theorem keyword_infix_of_normalizeReply {kw raw : Str} (hkw : kw ∈ keywords)
    (h : kw <:+: normalizeReply raw) : kw <:+: raw := by
  have h1 : kw <:+: replaceScan "\r\n".toList "\n".toList 0 raw := by
    unfold normalizeReply at h
    rw [replaceAll_crlf] at h
    exact h.trans (trimSpace_isInfix _)
  have hd : ∀ c, c ∈ "\n".toList → c ∉ kw := by
    intro c hc
    have : c = '\n' := by simpa using hc
    subst this
    exact newline_not_mem_keywords kw hkw
  exact infix_of_infix_replaceScan (by decide) (by decide) hd raw.length raw (Nat.le_refl _) h1

/-! ## The answer formatter: claims -/

/-- C4, as stated, fails: `"A\r\nB"` has no marker and no answer prefix, yet the
result `"A\nB"` is not the trimmed input; and `" 答案：B"` does not begin with an
answer prefix, yet the prefix is stripped after trimming. -/
theorem formatAIAnswer_clean_counterexample :
    ((∀ kw, kw ∈ keywords → ¬ kw <:+: "A\r\nB".toList) ∧
      (∀ pre, pre ∈ answerPrefixes → ¬ pre <+: "A\r\nB".toList) ∧
      formatAIAnswer "A\r\nB".toList = "A\nB".toList ∧
      formatAIAnswer "A\r\nB".toList ≠ trimSpace "A\r\nB".toList) ∧
    ((∀ kw, kw ∈ keywords → ¬ kw <:+: " 答案：B".toList) ∧
      (∀ pre, pre ∈ answerPrefixes → ¬ pre <+: " 答案：B".toList) ∧
      formatAIAnswer " 答案：B".toList = "B".toList ∧
      formatAIAnswer " 答案：B".toList ≠ trimSpace " 答案：B".toList) := by
  decide

/-- C4, amended: a raw reply that contains none of the ten marker phrases, and whose
normalised text (`"\r\n"` replaced by `"\n"`, then trimmed) begins with none of the
four answer prefixes, is returned as its normalised text; when it also contains no
`"\r\n"`, that is the trimmed input. -/
theorem formatAIAnswer_of_clean (raw : Str)
    (hk : ∀ kw, kw ∈ keywords → ¬ kw <:+: raw)
    (hp : ∀ pre, pre ∈ answerPrefixes →
      ¬ pre <+: trimSpace (replaceAll raw "\r\n".toList "\n".toList)) :
    formatAIAnswer raw = trimSpace (replaceAll raw "\r\n".toList "\n".toList) ∧
      (¬ "\r\n".toList <:+: raw → formatAIAnswer raw = trimSpace raw) := by
  have hmain : formatAIAnswer raw = normalizeReply raw := by
    unfold formatAIAnswer
    by_cases hn : normalizeReply raw = []
    · simp [hn]
    · have hcut : cutAnalysis keywords (normalizeReply raw) = ([], normalizeReply raw) :=
        cutAnalysis_of_none _ _
          (fun kw hkw hin => hk kw hkw (keyword_infix_of_normalizeReply hkw hin))
      have hstrip : stripAnswerPrefix answerPrefixes (normalizeReply raw) = normalizeReply raw :=
        stripAnswerPrefix_of_none _ _ hp
      simp [hn, hcut, hstrip]
  refine ⟨hmain, ?_⟩
  intro hcr
  rw [hmain]
  unfold normalizeReply
  rw [replaceAll_crlf, replaceScan_of_not_infix hcr]

/-- The amended C4 at the spec's instance `"C"`. -/
theorem formatAIAnswer_of_clean_witness :
    formatAIAnswer "C".toList = trimSpace (replaceAll "C".toList "\r\n".toList "\n".toList) ∧
      (¬ "\r\n".toList <:+: "C".toList → formatAIAnswer "C".toList = trimSpace "C".toList) :=
  formatAIAnswer_of_clean "C".toList (by decide) (by decide)

/-- C5, as stated, fails: in `"A理由：x解析：y"` the marker `理由：` occurs at position 1
and no marker occurs earlier, but the kept answer section is `"A理由：x"`, not `"A"`:
the cut is made at `解析：`, which comes first in the keyword list. -/
theorem formatAIAnswer_leftmost_counterexample :
    normalizeReply "A理由：x解析：y".toList
        = "A".toList ++ "理由：".toList ++ "x解析：y".toList ∧
      "理由：".toList ∈ keywords ∧
      (∀ kw, kw ∈ keywords → ∀ j, j < 1 →
        ¬ kw <+: (normalizeReply "A理由：x解析：y".toList).drop j) ∧
      (cutAnalysis keywords (normalizeReply "A理由：x解析：y".toList)).2 = "A理由：x".toList ∧
      (cutAnalysis keywords (normalizeReply "A理由：x解析：y".toList)).2 ≠ trimSpace "A".toList ∧
      formatAIAnswer "A理由：x解析：y".toList = "A理由：x".toList := by
  decide

/-- C5, amended: when the normalised text contains a marker phrase, the answer
section kept by `formatAIAnswer` is the trimmed text before the leftmost occurrence
of the first marker, in the order of the keyword list, that occurs in the text;
the result is computed from that section alone. -/
theorem formatAIAnswer_cut_at_first_keyword (raw : Str)
    (h : ∃ kw, kw ∈ keywords ∧ kw <:+: normalizeReply raw) :
    ∃ before kw after u v, keywords = before ++ kw :: after ∧
      (∀ k, k ∈ before → ¬ k <:+: normalizeReply raw) ∧
      normalizeReply raw = u ++ kw ++ v ∧
      (∀ u' v', normalizeReply raw = u' ++ kw ++ v' → u.length ≤ u'.length) ∧
      (cutAnalysis keywords (normalizeReply raw)).2 = trimSpace u ∧
      formatAIAnswer raw =
        (if stripAnswerPrefix answerPrefixes (trimSpace u) = [] then trimSpace u
         else stripAnswerPrefix answerPrefixes (trimSpace u)) := by
  obtain ⟨before, kw, after, u, v, h1, h2, h3, h4, h5⟩ := cutAnalysis_spec keywords _ h
  refine ⟨before, kw, after, u, v, h1, h2, h3, h4, by rw [h5], ?_⟩
  have hkw : kw ∈ keywords := by rw [h1]; simp
  have hn : normalizeReply raw ≠ [] := by
    rw [h3]
    have := keywords_ne_nil kw hkw
    simp [this]
  unfold formatAIAnswer
  simp only [hn, if_false, h5]

/-- The amended C5 at `"A理由：x解析：y"`. -/
theorem formatAIAnswer_cut_at_first_keyword_witness :
    ∃ before kw after u v, keywords = before ++ kw :: after ∧
      (∀ k, k ∈ before → ¬ k <:+: normalizeReply "A理由：x解析：y".toList) ∧
      normalizeReply "A理由：x解析：y".toList = u ++ kw ++ v ∧
      (∀ u' v', normalizeReply "A理由：x解析：y".toList = u' ++ kw ++ v' →
        u.length ≤ u'.length) ∧
      (cutAnalysis keywords (normalizeReply "A理由：x解析：y".toList)).2 = trimSpace u ∧
      formatAIAnswer "A理由：x解析：y".toList =
        (if stripAnswerPrefix answerPrefixes (trimSpace u) = [] then trimSpace u
         else stripAnswerPrefix answerPrefixes (trimSpace u)) :=
  formatAIAnswer_cut_at_first_keyword "A理由：x解析：y".toList
    ⟨"解析：".toList, by decide, by decide⟩

/-- The line-ending scan passes over a text that has no `"\r\n"` and does not end
with `'\r'`, whatever follows it. -/
theorem replaceScan_crlf_append (a t : Str) (hcr : ¬ "\r\n".toList <:+: a)
    (hlast : a.getLast? ≠ some '\r') :
    replaceScan "\r\n".toList "\n".toList 0 (a ++ t)
      = a ++ replaceScan "\r\n".toList "\n".toList 0 t := by
  apply replaceScan_append_of_no_match
  intro j hj hp
  rcases prefix_drop_append_cases hj hp with h1 | ⟨k, hk0, hk1, hk2, _⟩
  · exact hcr ((infix_iff_prefix_drop _ a).2 ⟨j, h1⟩)
  · have hk : k = 1 := by
      have : "\r\n".toList.length = 2 := rfl
      omega
    subst hk
    have hsuf : ['\r'] <:+ a := by
      have : "\r\n".toList.take 1 = ['\r'] := rfl
      rw [← this, hk2]
      exact List.drop_suffix j a
    exact hlast (getLast?_of_suffix (by simp) hsuf)

/-- C3: for a non-empty answer text `a` without leading or trailing white space,
without `"\r\n"` and without the marker `解析：`, and for every analysis text `x`,
`formatAIAnswer ("答案：" ++ a ++ "\n解析：" ++ x) = a`. -/
theorem formatAIAnswer_answer_then_analysis (a x : Str) (ha : a ≠ [])
    (hl : ∀ c, a.head? = some c → isSpace c = false)
    (hr : ∀ c, a.getLast? = some c → isSpace c = false)
    (hcr : ¬ "\r\n".toList <:+: a) (hk : ¬ "解析：".toList <:+: a) :
    formatAIAnswer ("答案：".toList ++ a ++ "\n解析：".toList ++ x) = a := by
  obtain ⟨a', l, hal, hlast⟩ := exists_eq_append_last ha
  have hlsp : isSpace l = false := hr l hlast
  have hpre : "答案：".toList = ['答', '案', '：'] := rfl
  have hkw : "解析：".toList = ['解', '析', '：'] := rfl
  have hnk : "\n解析：".toList = '\n' :: "解析：".toList := rfl
  have hnotcr : a.getLast? ≠ some '\r' := by
    rw [hlast]
    intro h
    have : l = '\r' := by simpa using h
    rw [this] at hlsp
    exact absurd hlsp (by decide)
  -- the line-ending scan leaves everything before `x` as it is
  have hscan : replaceScan "\r\n".toList "\n".toList 0
      ("答案：".toList ++ a ++ "\n解析：".toList ++ x)
      = "答案：".toList ++ a ++ "\n解析：".toList
          ++ replaceScan "\r\n".toList "\n".toList 0 x := by
    have e1 : ∀ (c : Char) (s : Str), c ≠ '\r' →
        replaceScan "\r\n".toList "\n".toList 0 (c :: s)
          = c :: replaceScan "\r\n".toList "\n".toList 0 s := by
      intro c s hc
      apply replaceScan_cons_of_no_match
      intro hp
      have : "\r\n".toList = '\r' :: ['\n'] := rfl
      rw [this, List.cons_prefix_cons] at hp
      exact hc hp.1.symm
    simp only [hpre, hnk, hkw, List.cons_append, List.nil_append, List.append_assoc]
    rw [e1 _ _ (by decide), e1 _ _ (by decide), e1 _ _ (by decide),
      replaceScan_crlf_append a _ hcr hnotcr,
      e1 _ _ (by decide), e1 _ _ (by decide), e1 _ _ (by decide), e1 _ _ (by decide)]
  -- the normalised text
  have hnorm : normalizeReply ("答案：".toList ++ a ++ "\n解析：".toList ++ x)
      = ("答案：".toList ++ a ++ ['\n']) ++ "解析：".toList
          ++ trimRight (replaceScan "\r\n".toList "\n".toList 0 x) := by
    unfold normalizeReply trimSpace
    rw [replaceAll_crlf, hscan]
    have h1 : "答案：".toList ++ a ++ "\n解析：".toList
          ++ replaceScan "\r\n".toList "\n".toList 0 x
        = '答' :: (['案', '：'] ++ a ++ "\n解析：".toList
          ++ replaceScan "\r\n".toList "\n".toList 0 x) := by
      simp [hpre]
    rw [h1, trimLeft_cons_of_not_space _ (by decide)]
    have h2 : '答' :: (['案', '：'] ++ a ++ "\n解析：".toList
          ++ replaceScan "\r\n".toList "\n".toList 0 x)
        = (("答案：".toList ++ a ++ ['\n', '解', '析']) ++ ['：'])
          ++ replaceScan "\r\n".toList "\n".toList 0 x := by
      simp [hpre, hnk, hkw]
    rw [h2, trimRight_append_of_last _ _ '：' (by decide)]
    simp [hkw]
  -- the marker is found right after the answer
  have hidx : index (normalizeReply ("答案：".toList ++ a ++ "\n解析：".toList ++ x))
      "解析：".toList = some ("答案：".toList ++ a ++ ['\n']).length := by
    apply index_of_leftmost hnorm
    intro j hj hp
    rw [hnorm, List.append_assoc] at hp
    rcases prefix_drop_append_cases hj hp with h1 | ⟨k, hk0, hk1, hk2, _⟩
    · have hin : "解析：".toList <:+: ("答案：".toList ++ a) ++ ['\n'] :=
        (infix_iff_prefix_drop _ _).2 ⟨j, h1⟩
      rcases infix_append_cases hin with h2 | h2 | ⟨k, hk0, hk1, _, hk3⟩
      · rcases infix_append_cases h2 with h3 | h3 | ⟨k, hk0, hk1, hk2, _⟩
        · exact absurd h3 (by decide)
        · exact hk h3
        · have hk3 : k < 3 := hk1
          interval_cases k
          · exact absurd hk2 (by decide)
          · exact absurd hk2 (by decide)
      · exact absurd h2 (by decide)
      · have hk3' : k < 3 := hk1
        interval_cases k
        · exact absurd hk3 (by decide)
        · exact absurd hk3 (by decide)
    · have hsuf : ("解析：".toList.take k) <:+ ("答案：".toList ++ a) ++ ['\n'] := by
        rw [hk2]; exact List.drop_suffix j _
      have hne : "解析：".toList.take k ≠ [] := by
        have hk3 : k < 3 := hk1
        interval_cases k <;> decide
      have hlast' := getLast?_of_suffix hne hsuf
      have e : (("答案：".toList ++ a) ++ ['\n']).getLast? = some '\n' := by
        rw [List.getLast?_append]; rfl
      rw [e] at hlast'
      have hk3 : k < 3 := hk1
      interval_cases k
      · exact absurd hlast' (by decide)
      · exact absurd hlast' (by decide)
  -- the answer section
  have hsec : trimSpace ("答案：".toList ++ a ++ ['\n']) = "答案：".toList ++ a := by
    unfold trimSpace
    have h1 : "答案：".toList ++ a ++ ['\n'] = '答' :: (['案', '：'] ++ a ++ ['\n']) := by
      simp [hpre]
    rw [h1, trimLeft_cons_of_not_space _ (by decide)]
    have h2 : '答' :: (['案', '：'] ++ a ++ ['\n'])
        = (("答案：".toList ++ a') ++ [l]) ++ ['\n'] := by
      simp [hpre, hal]
    rw [h2, trimRight_append_of_last _ _ l hlsp]
    have h3 : trimRight ['\n'] = [] := by decide
    rw [h3, hal]
    simp
  have hcut : (cutAnalysis keywords
      (normalizeReply ("答案：".toList ++ a ++ "\n解析：".toList ++ x))).2
      = "答案：".toList ++ a := by
    have hkws : keywords = "解析：".toList :: keywords.tail := rfl
    rw [hkws]
    simp only [cutAnalysis, hidx]
    have htake : List.take ("答案：".toList ++ a ++ ['\n']).length
        (normalizeReply ("答案：".toList ++ a ++ "\n解析：".toList ++ x))
        = "答案：".toList ++ a ++ ['\n'] := by
      rw [hnorm, List.append_assoc ("答案：".toList ++ a ++ ['\n'])]
      exact List.take_left' rfl
    rw [htake, hsec]
  -- the prefix is stripped
  have hstrip : stripAnswerPrefix answerPrefixes ("答案：".toList ++ a) = a := by
    have hps : answerPrefixes
        = ["正确答案：".toList, "正确答案:".toList, "答案：".toList, "答案:".toList] := rfl
    have hno : ∀ (p : Str), p.head? = some '正' →
        hasPrefix ("答案：".toList ++ a) p = false := by
      intro p hp
      cases hb : hasPrefix ("答案：".toList ++ a) p with
      | false => rfl
      | true =>
        have hpf := (isPrefixOf_eq_true_iff _ _).1 hb
        cases p with
        | nil => simp at hp
        | cons c p =>
          have hc : c = '正' := by simpa using hp
          subst hc
          rw [hpre] at hpf
          simp only [List.cons_append, List.cons_prefix_cons] at hpf
          exact absurd hpf.1 (by decide)
    have hyes : hasPrefix ("答案：".toList ++ a) "答案：".toList = true :=
      (isPrefixOf_eq_true_iff _ _).2 (List.prefix_append _ _)
    rw [hps]
    simp only [stripAnswerPrefix, hno "正确答案：".toList rfl, hno "正确答案:".toList rfl, hyes,
      trimPrefix, if_true]
    rw [List.drop_left]
    exact trimSpace_eq_self hl hr
  have hnn : normalizeReply ("答案：".toList ++ a ++ "\n解析：".toList ++ x) ≠ [] := by
    rw [hnorm, hpre]; simp
  unfold formatAIAnswer
  simp only [hnn, if_false, hcut, hstrip, ha]

/-- C3 at the spec's instance `"答案：B\n解析：因为B选项最符合题意"`. -/
theorem formatAIAnswer_answer_then_analysis_witness :
    formatAIAnswer ("答案：".toList ++ "B".toList ++ "\n解析：".toList
      ++ "因为B选项最符合题意".toList) = "B".toList :=
  formatAIAnswer_answer_then_analysis "B".toList "因为B选项最符合题意".toList
    (by decide) (by decide) (by decide) (by decide) (by decide)

/-! ## The query handler: claims -/

/-- Once the request went out and a reply was read, `handleAIQuery` answers with
what `answerFrom` makes of the reply. -/
theorem handleAIQuery_of_received {w : World} {config : AIConfig} {req : QueryRequest}
    {body : Str} {resp : HttpResponse} (ht : trimSpace req.Title ≠ [])
    (hm : w.jsonMarshal (buildPayload w config req) = .ok body)
    (hu : w.urlError (resolveBaseURL config) = none)
    (hd : w.clientDo (buildRequest config body) = .ok resp) :
    handleAIQuery w config req = answerFrom w req resp (sentCalls w config req body) := by
  unfold handleAIQuery
  simp only [ht, if_false, hm, hu, hd]

/-- C2: a request whose title is empty or only white space is answered by
`HandleQuery` and by `handleAIQuery` with status 400 and `code = 0`, and no step
towards the AI endpoint is taken, whatever the other fields are. -/
theorem HandleQuery_blank_title (w : World) (config : AIConfig) (inbound : Inbound)
    (req : QueryRequest) (hb : bindRequest inbound = .ok req)
    (ht : trimSpace req.Title = []) :
    ((HandleQuery w config inbound).status = 400 ∧
      (HandleQuery w config inbound).body.code = 0 ∧
      (HandleQuery w config inbound).calls = []) ∧
    ((handleAIQuery w config req).status = 400 ∧
      (handleAIQuery w config req).body.code = 0 ∧
      (handleAIQuery w config req).calls = []) := by
  have h2 : handleAIQuery w config req = fail 400 "缺少必要参数: title".toList [] := by
    unfold handleAIQuery
    simp only [ht, if_true]
  have h1 : HandleQuery w config inbound = fail 400 "缺少必要参数: title".toList [] := by
    unfold HandleQuery
    simp only [hb]
    by_cases h : req.Title = []
    · simp only [h, if_true]
    · simp only [h, if_false, h2]
  rw [h1, h2]
  exact ⟨⟨rfl, rfl, rfl⟩, ⟨rfl, rfl, rfl⟩⟩

/-- C2 at a `POST` whose title is two spaces and whose other fields are set. -/
theorem HandleQuery_blank_title_witness :
    ((HandleQuery (cannedWorld 200 "B".toList) blankConfig
        (.other (.ok ⟨"t".toList, "  ".toList, "A.1 B.2".toList, "single".toList,
          some true⟩))).status = 400 ∧
      (HandleQuery (cannedWorld 200 "B".toList) blankConfig
        (.other (.ok ⟨"t".toList, "  ".toList, "A.1 B.2".toList, "single".toList,
          some true⟩))).body.code = 0 ∧
      (HandleQuery (cannedWorld 200 "B".toList) blankConfig
        (.other (.ok ⟨"t".toList, "  ".toList, "A.1 B.2".toList, "single".toList,
          some true⟩))).calls = []) ∧
    ((handleAIQuery (cannedWorld 200 "B".toList) blankConfig
        ⟨"t".toList, "  ".toList, "A.1 B.2".toList, "single".toList, some true⟩).status = 400 ∧
      (handleAIQuery (cannedWorld 200 "B".toList) blankConfig
        ⟨"t".toList, "  ".toList, "A.1 B.2".toList, "single".toList, some true⟩).body.code = 0 ∧
      (handleAIQuery (cannedWorld 200 "B".toList) blankConfig
        ⟨"t".toList, "  ".toList, "A.1 B.2".toList, "single".toList, some true⟩).calls = []) :=
  HandleQuery_blank_title (cannedWorld 200 "B".toList) blankConfig
    (.other (.ok ⟨"t".toList, "  ".toList, "A.1 B.2".toList, "single".toList, some true⟩))
    ⟨"t".toList, "  ".toList, "A.1 B.2".toList, "single".toList, some true⟩ rfl (by decide)

/-- C1 fails on the code: for the title `"Q"` and a well-formed reply (status 200,
no `error`, one choice) whose content `"解析：因为B选项最符合题意"` is not blank,
`handleAIQuery` answers `code = 1` with an empty `answer`. -/
theorem handleAIQuery_empty_answer :
    trimSpace (titleOnly "Q".toList).Title ≠ [] ∧
      trimSpace "解析：因为B选项最符合题意".toList ≠ [] ∧
      formatAIAnswer (trimSpace "解析：因为B选项最符合题意".toList) = [] ∧
      (handleAIQuery (cannedWorld 200 "解析：因为B选项最符合题意".toList) blankConfig
          (titleOnly "Q".toList)).status = 200 ∧
      (handleAIQuery (cannedWorld 200 "解析：因为B选项最符合题意".toList) blankConfig
          (titleOnly "Q".toList)).body
        = .success ⟨1, "AI回答成功".toList, -1, ⟨"Q".toList, [], []⟩⟩ := by
  refine ⟨by decide, by decide, by decide, ?_, ?_⟩
  · rw [@handleAIQuery_of_received _ _ _ "payload".toList
      ⟨200, .ok "reply".toList⟩ (by decide) rfl rfl rfl]
    decide
  · rw [@handleAIQuery_of_received _ _ _ "payload".toList
      ⟨200, .ok "reply".toList⟩ (by decide) rfl rfl rfl]
    decide

/-- C8: on the success path (non-blank title, the request sent, a reply read with a
status below 400 that decodes with no `error` and a first choice of non-blank
content) the response has status 200, `code = 1` and `times = -1`; with `more`
present and true its data holds exactly one result, with the request's title and
the formatted answer, and empty flat fields; with `more` absent or false it holds
the title and the formatted answer in the flat fields and no results. -/
theorem handleAIQuery_success_shape (w : World) (config : AIConfig) (req : QueryRequest)
    (body respBody : Str) (resp : HttpResponse) (aiResp : OpenAIResponse)
    (choice : Choice) (rest : List Choice)
    (ht : trimSpace req.Title ≠ [])
    (hm : w.jsonMarshal (buildPayload w config req) = .ok body)
    (hu : w.urlError (resolveBaseURL config) = none)
    (hd : w.clientDo (buildRequest config body) = .ok resp)
    (hb : resp.Body = .ok respBody) (hs : resp.StatusCode < 400)
    (hj : w.jsonUnmarshal respBody = .ok aiResp) (he : aiResp.Error = none)
    (hc : aiResp.Choices = choice :: rest)
    (hn : trimSpace choice.Message.Content ≠ []) :
    (handleAIQuery w config req).status = 200 ∧
    (req.More = some true →
      (handleAIQuery w config req).body =
        .success ⟨1, "AI回答成功".toList, -1,
          ⟨[], [], [⟨req.Title, formatAIAnswer (trimSpace choice.Message.Content)⟩]⟩⟩) ∧
    (req.More ≠ some true →
      (handleAIQuery w config req).body =
        .success ⟨1, "AI回答成功".toList, -1,
          ⟨req.Title, formatAIAnswer (trimSpace choice.Message.Content), []⟩⟩) := by
  have hs' : ¬ resp.StatusCode ≥ 400 := not_le.2 hs
  rw [handleAIQuery_of_received ht hm hu hd]
  unfold answerFrom
  simp only [hb, hs', if_false, hj, he, hc, hn]
  refine ⟨trivial, ?_, ?_⟩
  · intro hmore; simp only [hmore, if_true]
  · intro hmore; simp only [hmore, if_false]

/-- C8 at the title `"Q"` with `more = true` and the reply content `"答案：B"`. -/
theorem handleAIQuery_success_shape_witness :
    (handleAIQuery (cannedWorld 200 "答案：B".toList) blankConfig
        ⟨[], "Q".toList, [], [], some true⟩).status = 200 ∧
    ((some true : Option Bool) = some true →
      (handleAIQuery (cannedWorld 200 "答案：B".toList) blankConfig
          ⟨[], "Q".toList, [], [], some true⟩).body =
        .success ⟨1, "AI回答成功".toList, -1,
          ⟨[], [], [⟨"Q".toList, formatAIAnswer (trimSpace "答案：B".toList)⟩]⟩⟩) ∧
    ((some true : Option Bool) ≠ some true →
      (handleAIQuery (cannedWorld 200 "答案：B".toList) blankConfig
          ⟨[], "Q".toList, [], [], some true⟩).body =
        .success ⟨1, "AI回答成功".toList, -1,
          ⟨"Q".toList, formatAIAnswer (trimSpace "答案：B".toList), []⟩⟩) :=
  handleAIQuery_success_shape (cannedWorld 200 "答案：B".toList) blankConfig
    ⟨[], "Q".toList, [], [], some true⟩ "payload".toList "reply".toList
    ⟨200, .ok "reply".toList⟩ ⟨[⟨⟨"assistant".toList, "答案：B".toList⟩⟩], none⟩
    ⟨⟨"assistant".toList, "答案：B".toList⟩⟩ []
    (by decide) rfl rfl rfl rfl (by decide) rfl rfl rfl (by decide)

/-- C9, as stated, fails: an upstream response of status 503 whose body cannot be
read is answered with status 500, not 503 (with `code = 0`): the body is read, and
a read failure reported, before the status is looked at. -/
theorem handleAIQuery_unread_body_status :
    trimSpace (titleOnly "Q".toList).Title ≠ [] ∧
      (400 : Int) ≤ 503 ∧
      (unreadWorld 503 "unexpected EOF".toList).clientDo
          (buildRequest blankConfig "payload".toList)
        = .ok ⟨503, .error "unexpected EOF".toList⟩ ∧
      (handleAIQuery (unreadWorld 503 "unexpected EOF".toList) blankConfig
        (titleOnly "Q".toList)).status = 500 ∧
      (handleAIQuery (unreadWorld 503 "unexpected EOF".toList) blankConfig
        (titleOnly "Q".toList)).status ≠ 503 ∧
      (handleAIQuery (unreadWorld 503 "unexpected EOF".toList) blankConfig
        (titleOnly "Q".toList)).body
        = .failure ⟨0, "读取AI响应失败: unexpected EOF".toList⟩ := by
  refine ⟨by decide, by decide, rfl, ?_, ?_, ?_⟩
  · rw [@handleAIQuery_of_received _ _ _ "payload".toList
      ⟨503, .error "unexpected EOF".toList⟩ (by decide) rfl rfl rfl]
    decide
  · rw [@handleAIQuery_of_received _ _ _ "payload".toList
      ⟨503, .error "unexpected EOF".toList⟩ (by decide) rfl rfl rfl]
    decide
  · rw [@handleAIQuery_of_received _ _ _ "payload".toList
      ⟨503, .error "unexpected EOF".toList⟩ (by decide) rfl rfl rfl]
    decide

/-- C9, amended: for a non-blank title and an upstream response with a status of 400
or more whose body was read, whatever that body is, `handleAIQuery` answers with
`code = 0` and with the upstream status as its HTTP status. -/
theorem handleAIQuery_upstream_status (w : World) (config : AIConfig) (req : QueryRequest)
    (body respBody : Str) (resp : HttpResponse)
    (ht : trimSpace req.Title ≠ [])
    (hm : w.jsonMarshal (buildPayload w config req) = .ok body)
    (hu : w.urlError (resolveBaseURL config) = none)
    (hd : w.clientDo (buildRequest config body) = .ok resp)
    (hb : resp.Body = .ok respBody) (hs : resp.StatusCode ≥ 400) :
    (handleAIQuery w config req).status = resp.StatusCode ∧
      (handleAIQuery w config req).body.code = 0 := by
  rw [handleAIQuery_of_received ht hm hu hd]
  unfold answerFrom
  simp only [hb, hs, if_true]
  exact ⟨rfl, rfl⟩

/-- The amended C9 at the upstream status 429, with a body that would decode to an
answer. -/
theorem handleAIQuery_upstream_status_witness :
    (handleAIQuery (cannedWorld 429 "B".toList) blankConfig (titleOnly "Q".toList)).status
        = (⟨429, .ok "reply".toList⟩ : HttpResponse).StatusCode ∧
      (handleAIQuery (cannedWorld 429 "B".toList) blankConfig
        (titleOnly "Q".toList)).body.code = 0 :=
  handleAIQuery_upstream_status (cannedWorld 429 "B".toList) blankConfig (titleOnly "Q".toList)
    "payload".toList "reply".toList ⟨429, .ok "reply".toList⟩
    (by decide) rfl rfl rfl rfl (by decide)

/-- C10, as stated, fails: the status 300 lies outside 200..299, yet with a body that
decodes to the answer `"B"` the response is a success, `code = 1`. -/
theorem handleAIQuery_status_300_succeeds :
    ¬ ((200 : Int) ≤ 300 ∧ (300 : Int) ≤ 299) ∧
      trimSpace (titleOnly "Q".toList).Title ≠ [] ∧
      (handleAIQuery (cannedWorld 300 "B".toList) blankConfig (titleOnly "Q".toList)).status
        = 200 ∧
      (handleAIQuery (cannedWorld 300 "B".toList) blankConfig (titleOnly "Q".toList)).body
        = .success ⟨1, "AI回答成功".toList, -1, ⟨"Q".toList, "B".toList, []⟩⟩ ∧
      (handleAIQuery (cannedWorld 300 "B".toList) blankConfig
        (titleOnly "Q".toList)).body.code = 1 := by
  refine ⟨by decide, by decide, ?_, ?_, ?_⟩
  · rw [@handleAIQuery_of_received _ _ _ "payload".toList
      ⟨300, .ok "reply".toList⟩ (by decide) rfl rfl rfl]
    decide
  · rw [@handleAIQuery_of_received _ _ _ "payload".toList
      ⟨300, .ok "reply".toList⟩ (by decide) rfl rfl rfl]
    decide
  · rw [@handleAIQuery_of_received _ _ _ "payload".toList
      ⟨300, .ok "reply".toList⟩ (by decide) rfl rfl rfl]
    decide

/-- C10, amended: for a non-blank title and a reply read with a status of 400 or
more, whatever its body, `handleAIQuery` produces a failure response (`code = 0`)
and not a success response. -/
theorem handleAIQuery_fails_from_400 (w : World) (config : AIConfig) (req : QueryRequest)
    (body respBody : Str) (resp : HttpResponse)
    (ht : trimSpace req.Title ≠ [])
    (hm : w.jsonMarshal (buildPayload w config req) = .ok body)
    (hu : w.urlError (resolveBaseURL config) = none)
    (hd : w.clientDo (buildRequest config body) = .ok resp)
    (hb : resp.Body = .ok respBody) (hs : resp.StatusCode ≥ 400) :
    (∃ message, (handleAIQuery w config req).body = .failure ⟨0, message⟩) ∧
      (handleAIQuery w config req).body.code ≠ 1 ∧
      ∀ q, (handleAIQuery w config req).body ≠ .success q := by
  rw [handleAIQuery_of_received ht hm hu hd]
  unfold answerFrom
  simp only [hb, hs, if_true]
  refine ⟨⟨_, rfl⟩, ?_, ?_⟩
  · show (0 : Int) ≠ 1
    decide
  · intro q h
    cases h

/-- The amended C10 at the upstream status 503. -/
theorem handleAIQuery_fails_from_400_witness :
    (∃ message, (handleAIQuery (cannedWorld 503 "B".toList) blankConfig
        (titleOnly "Q".toList)).body = .failure ⟨0, message⟩) ∧
      (handleAIQuery (cannedWorld 503 "B".toList) blankConfig
        (titleOnly "Q".toList)).body.code ≠ 1 ∧
      ∀ q, (handleAIQuery (cannedWorld 503 "B".toList) blankConfig
        (titleOnly "Q".toList)).body ≠ .success q :=
  handleAIQuery_fails_from_400 (cannedWorld 503 "B".toList) blankConfig (titleOnly "Q".toList)
    "payload".toList "reply".toList ⟨503, .ok "reply".toList⟩
    (by decide) rfl rfl rfl rfl (by decide)

/-! ## The prompt renderer -/

/-- When no occurrence of `q` lies in `p` and no proper head of `q` ends `p`, no
occurrence of `q` starts inside a leading `p`, whatever follows. -/
theorem no_start_inside {p q : Str} (h1 : ∀ j, j < p.length → ¬ q <+: p.drop j)
    (h2 : ∀ j, j < p.length → ∀ k, k < q.length → 0 < k → q.take k ≠ p.drop j) :
    ∀ j, j < p.length → ∀ t : Str, ¬ q <+: (p ++ t).drop j := by
  intro j hj t hq
  rcases prefix_drop_append_cases hj hq with h | ⟨k, hk0, hk1, hk2, _⟩
  · exact h1 j hj h
  · exact h2 j hj k hk1 hk0 hk2

/-- One step of the exchange of two replacements, at an occurrence of `p`. -/
theorem replaceScan_exchange_at_match {p q : Str} {x : Char} (hp : p ≠ []) (hq : q ≠ [])
    (hxq : x ∉ q) (hpq : ∀ j, j < p.length → ∀ t : Str, ¬ q <+: (p ++ t).drop j)
    (t' : Str) :
    replaceScan p [x] 0 (replaceScan q [x] 0 (p ++ t'))
        = x :: replaceScan p [x] 0 (replaceScan q [x] 0 t') ∧
      replaceScan q [x] 0 (replaceScan p [x] 0 (p ++ t'))
        = x :: replaceScan q [x] 0 (replaceScan p [x] 0 t') := by
  have hxhead : ∀ s : Str, ¬ q <+: x :: s := by
    intro s h
    cases q with
    | nil => exact hq rfl
    | cons a q =>
      rw [List.cons_prefix_cons] at h
      exact hxq (by simp [h.1])
  constructor
  · rw [replaceScan_append_of_no_match p t' (fun j hj => hpq j hj t'),
      replaceScan_of_match hp (List.prefix_append p _), List.drop_left]
    rfl
  · rw [replaceScan_of_match hp (List.prefix_append p t'), List.drop_left]
    exact replaceScan_cons_of_no_match (hxhead _)

/-- Two replacements by the same single code point `x` can be exchanged when `x`
occurs in neither pattern and no occurrence of one pattern starts inside the other. -/
theorem replaceScan_exchange {p q : Str} {x : Char} (hp : p ≠ []) (hq : q ≠ [])
    (hxp : x ∉ p) (hxq : x ∉ q)
    (hpq : ∀ j, j < p.length → ∀ t : Str, ¬ q <+: (p ++ t).drop j)
    (hqp : ∀ j, j < q.length → ∀ t : Str, ¬ p <+: (q ++ t).drop j) :
    ∀ (n : Nat) (t : Str), t.length ≤ n →
      replaceScan p [x] 0 (replaceScan q [x] 0 t)
        = replaceScan q [x] 0 (replaceScan p [x] 0 t) := by
  intro n
  induction n with
  | zero =>
    intro t ht
    have : t = [] := List.length_eq_zero.1 (Nat.le_zero.1 ht)
    subst this
    rfl
  | succ n ih =>
    intro t ht
    cases t with
    | nil => rfl
    | cons c cs =>
      by_cases h1 : p <+: c :: cs
      · obtain ⟨t', ht'⟩ := h1
        have hlen : t'.length ≤ n := by
          have h := congrArg List.length ht'
          have := List.length_pos.2 hp
          simp only [List.length_append, List.length_cons] at h ht
          omega
        obtain ⟨e1, e2⟩ := replaceScan_exchange_at_match hp hq hxq hpq t'
        rw [← ht', e1, e2, ih t' hlen]
      · by_cases h2 : q <+: c :: cs
        · obtain ⟨t', ht'⟩ := h2
          have hlen : t'.length ≤ n := by
            have h := congrArg List.length ht'
            have := List.length_pos.2 hq
            simp only [List.length_append, List.length_cons] at h ht
            omega
          obtain ⟨e1, e2⟩ := replaceScan_exchange_at_match hq hp hxp hqp t'
          rw [← ht', e1, e2, ih t' hlen]
        · have hlen : cs.length ≤ n := by simpa using ht
          have hp' : ¬ p <+: c :: replaceScan q [x] 0 cs := by
            intro h
            rw [← replaceScan_cons_of_no_match h2] at h
            exact h1 (prefix_of_prefix_replaceScan rfl hxp _ h)
          have hq' : ¬ q <+: c :: replaceScan p [x] 0 cs := by
            intro h
            rw [← replaceScan_cons_of_no_match h1] at h
            exact h2 (prefix_of_prefix_replaceScan rfl hxq _ h)
          rw [replaceScan_cons_of_no_match h2, replaceScan_cons_of_no_match h1,
            replaceScan_cons_of_no_match hp', replaceScan_cons_of_no_match hq', ih cs hlen]

/-- After the replacement by a single code point `x` that `p` does not contain, no
occurrence of `p` is left. -/
theorem not_infix_replaceScan_self {p : Str} {x : Char} (hp : p ≠ []) (hxp : x ∉ p) :
    ∀ (n : Nat) (t : Str), t.length ≤ n → ¬ p <:+: replaceScan p [x] 0 t := by
  have hd : ∀ c, c ∈ [x] → c ∉ p := by
    intro c hc
    have : c = x := by simpa using hc
    rw [this]; exact hxp
  intro n
  induction n with
  | zero =>
    intro t ht h
    have : t = [] := List.length_eq_zero.1 (Nat.le_zero.1 ht)
    subst this
    rw [replaceScan_nil] at h
    exact hp (List.eq_nil_of_infix_nil h)
  | succ n ih =>
    intro t ht h
    cases t with
    | nil =>
      rw [replaceScan_nil] at h
      exact hp (List.eq_nil_of_infix_nil h)
    | cons c cs =>
      by_cases h1 : p <+: c :: cs
      · rw [replaceScan_of_match hp h1] at h
        have h2 := infix_of_infix_append_disjoint hp hd h
        have hlen : ((c :: cs).drop p.length).length ≤ n := by
          have := List.length_pos.2 hp
          simp only [List.length_drop, List.length_cons] at ht ⊢
          omega
        exact ih _ hlen h2
      · rw [replaceScan_cons_of_no_match h1, List.infix_cons_iff] at h
        rcases h with h | h
        · rw [← replaceScan_cons_of_no_match h1] at h
          exact h1 (prefix_of_prefix_replaceScan rfl hxp _ h)
        · exact ih cs (by simpa using ht) h

theorem placeholder_text_ne_nil (a : Placeholder) : a.text ≠ [] := by
  cases a <;> decide

theorem fallback_not_mem_placeholder (a : Placeholder) : '无' ∉ a.text := by
  cases a <;> decide

/-- No occurrence of one placeholder starts inside an occurrence of another. -/
theorem placeholders_apart (a b : Placeholder) (h : a ≠ b) :
    ∀ j, j < a.text.length → ∀ t : Str, ¬ b.text <+: (a.text ++ t).drop j := by
  apply no_start_inside
  · cases a <;> cases b <;> first | exact absurd rfl h | decide
  · cases a <;> cases b <;> first | exact absurd rfl h | decide

/-- The six iteration orders are the arrangements of the three keys. -/
theorem mem_iterationOrders_iff (l : List Placeholder) :
    l ∈ iterationOrders ↔ l.Perm [.title, .options, .type] := by
  constructor
  · intro h
    simp only [iterationOrders, List.mem_cons, List.mem_singleton, List.not_mem_nil,
      or_false] at h
    rcases h with rfl | rfl | rfl | rfl | rfl | rfl <;> decide
  · intro h
    have hl := h.length_eq
    match l, hl, h with
    | [x, y, z], _, h =>
      revert h
      cases x <;> cases y <;> cases z <;> decide

/-- With all three fields blank, every step of the loop replaces by the fallback. -/
theorem renderPrompt_of_blank (order : List Placeholder) (template : Str) (req : QueryRequest)
    (h1 : trimSpace req.Title = []) (h2 : trimSpace req.Options = [])
    (h3 : trimSpace req.Typ = []) :
    renderPrompt order template req
      = order.foldl (fun prompt ph => replaceScan ph.text ['无'] 0 prompt) template := by
  unfold renderPrompt
  congr 1
  funext prompt ph
  have hv : replacements req ph = [] := by
    cases ph
    · exact h1
    · exact h2
    · exact h3
  simp only [hv, if_true]
  cases ph <;> rfl

/-- The fallback replacements of two placeholders can be exchanged. -/
theorem fallback_exchange (a b : Placeholder) (t : Str) :
    replaceScan a.text ['无'] 0 (replaceScan b.text ['无'] 0 t)
      = replaceScan b.text ['无'] 0 (replaceScan a.text ['无'] 0 t) := by
  by_cases h : a = b
  · rw [h]
  · exact replaceScan_exchange (placeholder_text_ne_nil a) (placeholder_text_ne_nil b)
      (fallback_not_mem_placeholder a) (fallback_not_mem_placeholder b)
      (placeholders_apart a b h) (placeholders_apart b a (fun e => h e.symm))
      t.length t (Nat.le_refl _)

/-- The fallback replacement of one placeholder creates no occurrence of another. -/
theorem fallback_keeps_absent (a b : Placeholder) (t : Str) (h : ¬ a.text <:+: t) :
    ¬ a.text <:+: replaceScan b.text ['无'] 0 t := by
  intro hin
  apply h
  refine infix_of_infix_replaceScan (placeholder_text_ne_nil b) (by simp) ?_ t.length t
    (Nat.le_refl _) hin
  intro c hc
  have : c = '无' := by simpa using hc
  rw [this]
  exact fallback_not_mem_placeholder a

/-- The fallback replacement of a placeholder leaves no occurrence of it. -/
theorem fallback_removes (a : Placeholder) (t : Str) :
    ¬ a.text <:+: replaceScan a.text ['无'] 0 t :=
  not_infix_replaceScan_self (placeholder_text_ne_nil a) (fallback_not_mem_placeholder a)
    t.length t (Nat.le_refl _)

/-- With all three fields blank, every iteration order renders the same prompt. -/
theorem renderPrompt_blank_canonical (template : Str) (req : QueryRequest)
    (h1 : trimSpace req.Title = []) (h2 : trimSpace req.Options = [])
    (h3 : trimSpace req.Typ = []) (order : List Placeholder) (ho : order ∈ iterationOrders) :
    renderPrompt order template req
      = replaceScan Placeholder.type.text ['无'] 0
          (replaceScan Placeholder.options.text ['无'] 0
            (replaceScan Placeholder.title.text ['无'] 0 template)) := by
  rw [renderPrompt_of_blank order template req h1 h2 h3]
  simp only [iterationOrders, List.mem_cons, List.mem_singleton, List.not_mem_nil,
    or_false] at ho
  rcases ho with rfl | rfl | rfl | rfl | rfl | rfl
  · rfl
  · simp only [List.foldl]
    rw [fallback_exchange .options .type]
  · simp only [List.foldl]
    rw [fallback_exchange .title .options template]
  · simp only [List.foldl]
    rw [fallback_exchange .title .type, fallback_exchange .title .options template]
  · simp only [List.foldl]
    rw [fallback_exchange .title .type template, fallback_exchange .options .type]
  · simp only [List.foldl]
    rw [fallback_exchange .options .type template, fallback_exchange .title .type,
      fallback_exchange .title .options template]

/-- C6 fails on the code: with the default template and the request title
`{{type}}`, type `单选`, the order title, options, type renders `题目：单选`, while
the order type, title, options leaves `题目：{{type}}` in the prompt. -/
theorem renderPrompt_order_dependent :
    ([.title, .options, .type] : List Placeholder) ∈ iterationOrders ∧
      ([.type, .title, .options] : List Placeholder) ∈ iterationOrders ∧
      renderPrompt [.title, .options, .type] defaultAIPromptTemplate
          ⟨[], "\x7b\x7btype\x7d\x7d".toList, [], "单选".toList, none⟩
        = "题目：单选\n选项：无\n类型：单选\n\n请给出最可能的正确答案，并在必要时给出简要解释。".toList ∧
      renderPrompt [.type, .title, .options] defaultAIPromptTemplate
          ⟨[], "\x7b\x7btype\x7d\x7d".toList, [], "单选".toList, none⟩
        = "题目：\x7b\x7btype\x7d\x7d\n选项：无\n类型：单选\n\n请给出最可能的正确答案，并在必要时给出简要解释。".toList ∧
      renderPrompt [.title, .options, .type] defaultAIPromptTemplate
          ⟨[], "\x7b\x7btype\x7d\x7d".toList, [], "单选".toList, none⟩
        ≠ renderPrompt [.type, .title, .options] defaultAIPromptTemplate
          ⟨[], "\x7b\x7btype\x7d\x7d".toList, [], "单选".toList, none⟩ := by
  decide

/-- C7: when title, options and type are all empty or only white space, then for
every template and every iteration order `renderPrompt` is the template with the
occurrences of the three placeholders replaced by `无`; the result contains no
occurrence of a placeholder and is the same for all six orders. -/
theorem renderPrompt_all_blank (template : Str) (req : QueryRequest)
    (h1 : trimSpace req.Title = []) (h2 : trimSpace req.Options = [])
    (h3 : trimSpace req.Typ = []) (order : List Placeholder) (ho : order ∈ iterationOrders) :
    renderPrompt order template req
        = replaceAll
            (replaceAll (replaceAll template "\x7b\x7btitle\x7d\x7d".toList "无".toList)
              "\x7b\x7boptions\x7d\x7d".toList "无".toList)
            "\x7b\x7btype\x7d\x7d".toList "无".toList ∧
      (∀ ph : Placeholder, ¬ ph.text <:+: renderPrompt order template req) ∧
      (∀ order', order' ∈ iterationOrders →
        renderPrompt order' template req = renderPrompt order template req) := by
  have hc := renderPrompt_blank_canonical template req h1 h2 h3 order ho
  refine ⟨hc, ?_, ?_⟩
  · intro ph
    rw [hc]
    cases ph
    · exact fallback_keeps_absent .title .type _
        (fallback_keeps_absent .title .options _ (fallback_removes .title template))
    · exact fallback_keeps_absent .options .type _ (fallback_removes .options _)
    · exact fallback_removes .type _
  · intro order' ho'
    rw [hc, renderPrompt_blank_canonical template req h1 h2 h3 order' ho']

/-- C7 at the default template, a request of blank fields and the order type,
options, title. -/
theorem renderPrompt_all_blank_witness :
    renderPrompt [.type, .options, .title] defaultAIPromptTemplate
          ⟨"t".toList, "  ".toList, [], "\n".toList, none⟩
        = replaceAll
            (replaceAll
              (replaceAll defaultAIPromptTemplate "\x7b\x7btitle\x7d\x7d".toList "无".toList)
              "\x7b\x7boptions\x7d\x7d".toList "无".toList)
            "\x7b\x7btype\x7d\x7d".toList "无".toList ∧
      (∀ ph : Placeholder, ¬ ph.text <:+:
        renderPrompt [.type, .options, .title] defaultAIPromptTemplate
          ⟨"t".toList, "  ".toList, [], "\n".toList, none⟩) ∧
      (∀ order', order' ∈ iterationOrders →
        renderPrompt order' defaultAIPromptTemplate
            ⟨"t".toList, "  ".toList, [], "\n".toList, none⟩
          = renderPrompt [.type, .options, .title] defaultAIPromptTemplate
            ⟨"t".toList, "  ".toList, [], "\n".toList, none⟩) :=
  renderPrompt_all_blank defaultAIPromptTemplate
    ⟨"t".toList, "  ".toList, [], "\n".toList, none⟩ (by decide) (by decide) (by decide)
    [.type, .options, .title] (by decide)

end OcsAI
